import Mathlib

/-!
Verification of the E.V.O.: Search for Eden decompressor
(`src/E.V.O/decomptest.py`).

The development shallowly embeds the two core functions of the repository:

* `decompress_evo_data` (lines 4-131): an LZSS-family decompressor driven
  by a command bitstream, with a 3-byte header, literal and back-reference
  commands, an extended-length encoding, clamping of copy lengths, and an
  optional "special" mode with a depletable 256-command counter;
* `detect_decompress_parameters` (lines 133-165): a heuristic that guesses
  whether a stream uses the special mode.

Byte buffers are embedded as `List Nat` (Python `bytes` guarantees every
element is below 256; where a proof needs that fact it takes an explicit
`isBytes` hypothesis).  Python `print` calls inside the decoder are the
program's only diagnostic channel; each print site is modelled as appending
one constructor of `Diag` to a diagnostics list carried in the loop state.
An index-out-of-range accessed by an unguarded read (only possible while
parsing the header) models Python's `IndexError` as an `Option.none`
result.  All reads inside the main loop are guarded by explicit bounds
checks in the source, so the loop itself is total.
-/

namespace EvoDecomp

/-- Diagnostics.  Each constructor models exactly one print site of
`decompress_evo_data`:
* `earlyTermination` — line 48 ("Special mode counter reached 0 ...");
* `truncatedLiteral` — line 64 ("Reached end of input data ...");
* `truncatedMatchInfo` — line 76 ("Not enough data for match info ...");
* `truncatedExtraLength` — line 92 ("Not enough data for extended length ...");
* `invalidBackreferenceOffset` — line 101 ("Invalid offset ...");
* `excessiveCopyLength` — line 106 ("Suspiciously large copy_length ...");
* `outputSizeOverrun` — line 111 ("Copy would exceed expected data size ...");
* `emptyBufferCopy` — line 116 ("Cannot copy from empty output buffer");
* `incompleteDecompression` — line 129 ("Incomplete decompression ..."). -/
inductive Diag where
  | earlyTermination
  | truncatedLiteral
  | truncatedMatchInfo
  | truncatedExtraLength
  | invalidBackreferenceOffset
  | excessiveCopyLength
  | outputSizeOverrun
  | emptyBufferCopy
  | incompleteDecompression
deriving DecidableEq

/-- Header fields derived from the 3 header bytes (lines 19-31):
`ecValue` is the control byte with bit 7 cleared (the base match length),
`specialFlag` is control-byte bit 7 (extended-length capability), and
`dataSize` is the 16-bit little-endian expected output size. -/
structure Header where
  ecValue : Nat
  specialFlag : Bool
  dataSize : Nat
deriving DecidableEq

/-- Loop-constant parameters of the main decompression loop: the header
fields plus the `special_mode` argument of `decompress_evo_data`. -/
structure Params where
  ecValue : Nat
  specialFlag : Bool
  dataSize : Nat
  specialMode : Bool
deriving DecidableEq

/-- Mutable state of the main loop of `decompress_evo_data`:
`output` is the growing output buffer, `pos` the read cursor,
`bitCount`/`commandByte` the bitstream reader state (lines 41-42), and
`specialCounter` the special-mode counter (line 39; Python stores `None`
when not in special mode and never reads it, so the value outside special
mode is irrelevant — we store 0 and gate every access on the mode flag
exactly as the source does).  `diags` models the print sites.
`emitted` is a ghost field not present in the Python: it counts the
commands that emit output (a literal copy or a performed back-reference),
which are exactly the sites where the special counter is decremented when
in special mode; it never influences control flow. -/
structure LoopState where
  output : List Nat
  pos : Nat
  bitCount : Nat
  commandByte : Nat
  specialCounter : Int
  emitted : Nat
  diags : List Diag
deriving DecidableEq

/-- Result of one iteration of the `while` body: `cont` means the loop
proceeds to the next iteration (normal fall-through or Python `continue`),
`stop` means a `break` was executed. -/
inductive StepRes where
  | cont (s : LoopState)
  | stop (s : LoopState)
deriving DecidableEq

/-- Header parsing, lines 19-31 of `decompress_evo_data`.  These three
reads are the only unguarded indexing operations in the function; an
out-of-range index raises `IndexError` in Python, modelled as `none`.
On success returns the header and the advanced cursor (`start_offset + 3`). -/
def parseHeader (data : List Nat) (startOffset : Nat) : Option (Header × Nat) :=
  match data[startOffset]? with
  | none => none
  | some c0 =>
    let ec := if c0 &&& 0x80 ≠ 0 then c0 &&& 0x7F else c0
    let specialFlag : Bool := decide (c0 &&& 0x80 ≠ 0)
    match data[startOffset + 1]?, data[startOffset + 2]? with
    | some b1, some b2 => some (⟨ec, specialFlag, b1 + b2 <<< 8⟩, startOffset + 3)
    | _, _ => none

/-- Initial loop state (lines 16-17, 39, 41-42): empty output, cursor just
past the header, `bit_count = 8`, `command_byte = 0`, special counter
`0x100` in special mode. -/
def initState (specialMode : Bool) (pos : Nat) : LoopState :=
  { output := []
    pos := pos
    bitCount := 8
    commandByte := 0
    specialCounter := if specialMode then 0x100 else 0
    emitted := 0
    diags := [] }

/-- One step of the copy loop of lines 120-121:
`output.append(output[len(output) - offset])`.  The read is in bounds at
every call site (`1 ≤ offset ≤ len(output)` is established by the checks
of lines 100 and 115), so the `getD` default is never used there. -/
def copyFromBack (output : List Nat) (offset : Nat) : List Nat :=
  output ++ [output.getD (output.length - offset) 0]

/-- Copy loop of lines 119-121: `copy_length` sequential single-byte
copies, each one reading position `len(output) - offset` computed after
all previous appends (the buffer grows between reads). -/
def copyLoop (output : List Nat) (offset : Nat) : Nat → List Nat
  | 0 => output
  | n + 1 => copyLoop (copyFromBack output offset) offset n

/-- Value of the command bit extracted by lines 52-58: when `bit_count = 8`
the command byte is first reloaded from the stream (the read is guarded by
the loop condition `pos < len(compressed_data)`). -/
def commandBitOf (data : List Nat) (s : LoopState) : Nat :=
  if s.bitCount = 8 then data.getD s.pos 0 &&& 1 else s.commandByte &&& 1

/-- State change performed by lines 52-59: reload the command byte when 8
bits were consumed, then increment `bit_count` and shift the command byte
right by one. -/
def afterBit (data : List Nat) (s : LoopState) : LoopState :=
  if s.bitCount = 8 then
    { s with bitCount := 1, commandByte := data.getD s.pos 0 >>> 1, pos := s.pos + 1 }
  else
    { s with bitCount := s.bitCount + 1, commandByte := s.commandByte >>> 1 }

/-- Literal command, lines 61-72: bounds-check the read, append one input
byte to the output, advance the cursor, decrement the special counter if
in special mode. -/
def literalStep (p : Params) (data : List Nat) (s : LoopState) : StepRes :=
  if s.pos ≥ data.length then
    .stop { s with diags := s.diags ++ [Diag.truncatedLiteral] }
  else
    .cont { s with
            output := s.output ++ [data.getD s.pos 0]
            pos := s.pos + 1
            specialCounter :=
              if p.specialMode then s.specialCounter - 1 else s.specialCounter
            emitted := s.emitted + 1 }

/-- Value `match_info` of line 79: 16-bit little-endian word at `pos`. -/
def matchInfoAt (data : List Nat) (pos : Nat) : Nat :=
  data.getD pos 0 + data.getD (pos + 1) 0 <<< 8

/-- Value `offset` of line 83: `(match_info & 0x0FFF) + 1`. -/
def matchOffsetAt (data : List Nat) (pos : Nat) : Nat :=
  (matchInfoAt data pos &&& 0x0FFF) + 1

/-- Value `length_field` of line 84: `(match_info >> 12) & 0x0F`. -/
def matchLengthFieldAt (data : List Nat) (pos : Nat) : Nat :=
  matchInfoAt data pos >>> 12 &&& 0x0F

/-- Tail of the match command, lines 99-125: the invalid-offset recovery
(`continue`, consuming nothing from the output), the `0x2000` ceiling, the
clamp to the remaining output budget, the empty-buffer check, the copy
loop, and the special-counter decrement.  `copyLen` is the total length
computed by lines 87-97 and `newPos` the cursor after the consumed match
bytes. -/
def matchFinish (p : Params) (copyLen offset newPos : Nat)
    (s : LoopState) : StepRes :=
  if offset > s.output.length then
    .cont { s with pos := newPos, diags := s.diags ++ [Diag.invalidBackreferenceOffset] }
  else
    let cl1 := if copyLen > 0x2000 then 0x2000 else copyLen
    let dg1 := if copyLen > 0x2000 then s.diags ++ [Diag.excessiveCopyLength] else s.diags
    let cl2 := if s.output.length + cl1 > p.dataSize then p.dataSize - s.output.length else cl1
    let dg2 := if s.output.length + cl1 > p.dataSize then dg1 ++ [Diag.outputSizeOverrun] else dg1
    if s.output.length = 0 then
      .stop { s with pos := newPos, diags := dg2 ++ [Diag.emptyBufferCopy] }
    else
      .cont { s with
              output := copyLoop s.output offset cl2
              pos := newPos
              diags := dg2
              specialCounter :=
                if p.specialMode then s.specialCounter - 1 else s.specialCounter
              emitted := s.emitted + 1 }

/-- Match command, lines 73-125: bounds-check and read the 16-bit
`match_info`, decode offset and length field, add the base length, read
the optional extended-length byte (lines 89-97), then finish via
`matchFinish`. -/
def matchStep (p : Params) (data : List Nat) (s : LoopState) : StepRes :=
  if s.pos + 1 ≥ data.length then
    .stop { s with diags := s.diags ++ [Diag.truncatedMatchInfo] }
  else
    let offset := matchOffsetAt data s.pos
    let lengthField := matchLengthFieldAt data s.pos
    let copyLen0 := lengthField + p.ecValue
    if lengthField = 0x0F ∧ p.specialFlag = true then
      if s.pos + 2 ≥ data.length then
        .stop { s with pos := s.pos + 2, diags := s.diags ++ [Diag.truncatedExtraLength] }
      else
        matchFinish p (copyLen0 + data.getD (s.pos + 2) 0) offset (s.pos + 3) s
    else
      matchFinish p copyLen0 offset (s.pos + 2) s

/-- Body of the `while` loop, lines 47-125: the special-counter early
termination check, then one command bit dispatched to the literal or the
match branch. -/
def loopStep (p : Params) (data : List Nat) (s : LoopState) : StepRes :=
  if p.specialMode = true ∧ s.specialCounter ≤ 0 then
    .stop { s with diags := s.diags ++ [Diag.earlyTermination] }
  else if commandBitOf data s = 1 then
    literalStep p data (afterBit data s)
  else
    matchStep p data (afterBit data s)

/-- Main loop, line 45: iterate `loopStep` while
`len(output) < data_size and pos < len(compressed_data)`.  `fuel` bounds
the number of iterations; `none` means the fuel ran out (shown impossible
for `fuel = data.length + 1` by the termination theorem). -/
def runLoop (p : Params) (data : List Nat) : Nat → LoopState → Option LoopState
  | fuel, s =>
    if s.output.length < p.dataSize ∧ s.pos < data.length then
      match fuel with
      | 0 => none
      | fuel + 1 =>
        match loopStep p data s with
        | .stop s2 => some s2
        | .cont s2 => runLoop p data fuel s2
    else some s

/-- Loop parameters from a parsed header and the mode argument. -/
def mkParams (h : Header) (specialMode : Bool) : Params :=
  ⟨h.ecValue, h.specialFlag, h.dataSize, specialMode⟩

/-- Embedding of `decompress_evo_data` (lines 4-131): parse the header,
run the main loop, then append the incomplete-decompression warning of
lines 128-129 when the output is shorter than expected.  The returned
state's `output` field is the bytearray the Python function returns;
`none` models an uncaught `IndexError` while reading the header. -/
def decompress_evo_data (data : List Nat) (startOffset : Nat)
    (specialMode : Bool) : Option LoopState :=
  match parseHeader data startOffset with
  | none => none
  | some (h, pos) =>
    match runLoop (mkParams h specialMode) data (data.length + 1)
        (initState specialMode pos) with
    | none => none
    | some s =>
      some (if s.output.length < h.dataSize
            then { s with diags := s.diags ++ [Diag.incompleteDecompression] }
            else s)

/-- Embedding of `detect_decompress_parameters` (lines 133-165): if fewer
than `start_offset + 4` bytes exist the guard of line 144 returns
`(False, 0, 0)`; otherwise the heuristic of line 156 fires iff the control
byte equals 1 and the data size is divisible by 0x100. -/
def detect_decompress_parameters (data : List Nat) (startOffset : Nat) :
    Bool × Nat × Nat :=
  if startOffset + 3 ≥ data.length then (false, 0, 0)
  else
    let controlByte := data.getD startOffset 0
    let dataSize := data.getD (startOffset + 1) 0 + data.getD (startOffset + 2) 0 <<< 8
    (decide (controlByte = 1 ∧ dataSize % 0x100 = 0), controlByte, dataSize)

/-- Well-formedness of a Python `bytes` buffer: every element is a byte. -/
def isBytes (data : List Nat) : Prop :=
  ∀ b ∈ data, b < 256

instance (data : List Nat) : Decidable (isBytes data) := by
  unfold isBytes
  infer_instance

/-- Example stream from the spec's overlapping back-reference test:
header `{baseLength = 0, extended = false, size = 4}`, command byte
`0x03` (bits 1,1,0,...), literals `0x41 0x42`, match word `0x01 0x20`. -/
def exData : List Nat := [0x00, 0x04, 0x00, 0x03, 0x41, 0x42, 0x01, 0x20]

/-! Helper lemmas about bit arithmetic and list reads. -/

lemma and_127_eq_mod (c : Nat) : c &&& 127 = c % 128 := by
  apply Nat.eq_of_testBit_eq
  intro i
  rw [Nat.testBit_and]
  have h7 : (127 : Nat) = 2 ^ 7 - 1 := by norm_num
  have h8 : (128 : Nat) = 2 ^ 7 := by norm_num
  rw [h7, h8, Nat.testBit_two_pow_sub_one, Nat.testBit_mod_two_pow]
  cases c.testBit i <;> simp

lemma and_128_ne_iff (c : Nat) : (c &&& 128 ≠ 0) ↔ c.testBit 7 = true := by
  have h8 : (128 : Nat) = 2 ^ 7 := by norm_num
  rw [h8, Nat.and_two_pow]
  cases hb : c.testBit 7 <;> simp

lemma le_127_of_and_128_eq_zero (c : Nat) (h : c &&& 128 = 0) (hc : c < 256) :
    c ≤ 127 := by
  have h8 : (128 : Nat) = 2 ^ 7 := by norm_num
  have h2 := Nat.and_two_pow c 7
  rw [h8] at h
  rw [h] at h2
  have hb : c.testBit 7 = false := by
    cases hb : c.testBit 7
    · rfl
    · rw [hb] at h2
      norm_num at h2
  rw [Nat.testBit_to_div_mod] at hb
  simp at hb
  omega

lemma getElem?_eq_some_getD (data : List Nat) (i : Nat) (h : i < data.length) :
    data[i]? = some (data.getD i 0) := by
  rw [List.getElem?_eq_getElem h, List.getD_eq_getElem?_getD, List.getElem?_eq_getElem h]
  rfl

lemma getD_lt_256 {data : List Nat} (hb : isBytes data) (i : Nat) :
    data.getD i 0 < 256 := by
  rw [List.getD_eq_getElem?_getD]
  cases hi : data[i]? with
  | none => simp
  | some b =>
    rcases List.getElem?_eq_some.mp hi with ⟨hlt, rfl⟩
    simpa using hb _ (List.getElem_mem hlt)

/-- Helper: explicit value of `parseHeader` when the three header bytes
exist, in the vocabulary of the source (`&&&`, `<<<`). -/
lemma parseHeader_eq (data : List Nat) (so : Nat) (h : so + 3 ≤ data.length) :
    parseHeader data so =
      some (⟨if data.getD so 0 &&& 0x80 ≠ 0 then data.getD so 0 &&& 0x7F
             else data.getD so 0,
             decide (data.getD so 0 &&& 0x80 ≠ 0),
             data.getD (so + 1) 0 + data.getD (so + 2) 0 <<< 8⟩,
            so + 3) := by
  unfold parseHeader
  rw [getElem?_eq_some_getD data so (by omega),
      getElem?_eq_some_getD data (so + 1) (by omega),
      getElem?_eq_some_getD data (so + 2) (by omega)]

/-- C1: back-reference copies read from the growing output buffer one byte
at a time: each step of the copy loop appends the byte at position
`length - offset` of the buffer produced by the previous steps (so
`offset < copyLength` yields a repeating pattern), and on the concrete
stream with header `{baseLength = 0, extended = false, size = 4}`, command
byte `0x03`, literals `0x41 0x42` and match word `0x01 0x20`
(`offset = 2`, `copyLength = 2`), decoding returns exactly
`[0x41, 0x42, 0x41, 0x42]`. -/
theorem c1_overlapping_backreference :
    (∀ (out : List Nat) (off n : Nat),
        copyLoop out off (n + 1) =
          copyLoop (out ++ [out.getD (out.length - off) 0]) off n) ∧
    (decompress_evo_data exData 0 false).map LoopState.output =
      some [0x41, 0x42, 0x41, 0x42] :=
  ⟨fun _ _ _ => rfl, by decide⟩

/-- C2: for every buffer with at least 3 bytes at the start offset, header
parsing reads the byte at the offset as the control byte; if its bit 7 is
set then the extended-length flag is true and the base length is the
control byte with bit 7 cleared (`c % 128`), otherwise the flag is false
and the base length is the control byte itself; the expected output size
is the 16-bit little-endian value of the next two bytes; and the cursor
advances by exactly 3. -/
theorem c2_header_parsing (data : List Nat) (so : Nat) (h : so + 3 ≤ data.length) :
    parseHeader data so =
      some (⟨if (data.getD so 0).testBit 7 then data.getD so 0 % 128
             else data.getD so 0,
             (data.getD so 0).testBit 7,
             data.getD (so + 1) 0 + 256 * data.getD (so + 2) 0⟩,
            so + 3) := by
  rw [parseHeader_eq data so h]
  simp only [Option.some.injEq, Prod.mk.injEq, Header.mk.injEq]
  refine ⟨⟨?_, ?_, ?_⟩, trivial⟩
  · cases hb : (data.getD so 0).testBit 7 with
    | false =>
      have hne : ¬(data.getD so 0 &&& 128 ≠ 0) := by
        rw [and_128_ne_iff, hb]
        simp
      rw [if_neg hne, if_neg (by simp [hb])]
    | true =>
      have hne : data.getD so 0 &&& 128 ≠ 0 := (and_128_ne_iff _).mpr hb
      rw [if_pos hne, if_pos (by simp [hb]), and_127_eq_mod]
  · cases hb : (data.getD so 0).testBit 7 with
    | false =>
      have hne : ¬(data.getD so 0 &&& 128 ≠ 0) := by
        rw [and_128_ne_iff, hb]
        simp
      exact decide_eq_false hne
    | true =>
      have hne : data.getD so 0 &&& 128 ≠ 0 := (and_128_ne_iff _).mpr hb
      exact decide_eq_true hne
  · rw [Nat.shiftLeft_eq]
    ring

/-- C2 witness: parsing the concrete header `81 02 01` yields extended
length enabled, base length 1, expected size 258, cursor 3. -/
theorem c2_header_parsing_witness :
    parseHeader [0x81, 0x02, 0x01] 0 = some (⟨1, true, 258⟩, 3) := by
  have h := c2_header_parsing [0x81, 0x02, 0x01] 0 (by norm_num)
  rw [h]
  decide

/-- C5 counterexample: on a buffer with fewer than 3 bytes the decoder
does not return any result at all (the unguarded header read raises
`IndexError`, modelled as `none`): the caller receives neither the empty
partial output nor a `TruncatedHeader` indication. -/
theorem c5_counterexample :
    (decompress_evo_data [0x00, 0x00] 0 false).isSome = false := by
  decide

/-- C5 amended: for every buffer with fewer than 3 bytes at the start
offset, decoding aborts with an index-out-of-range error (no result is
returned); the partial-output-plus-diagnostic behaviour claimed for fatal
conditions does not apply to header truncation. -/
theorem c5_truncated_header (data : List Nat) (so : Nat) (mode : Bool)
    (h : data.length < so + 3) : decompress_evo_data data so mode = none := by
  unfold decompress_evo_data parseHeader
  have h2 : data[so + 2]? = none := List.getElem?_eq_none (by omega)
  cases h0 : data[so]? with
  | none => rfl
  | some c0 =>
    cases h1 : data[so + 1]? with
    | none => simp [h2]
    | some b1 => simp [h2]

/-- C5 witness: a 1-byte buffer decodes to `none`. -/
theorem c5_truncated_header_witness :
    decompress_evo_data [0x00] 0 true = none :=
  c5_truncated_header [0x00] 0 true (by norm_num)

/-- C6 counterexample: on the 3-byte buffer `01 00 00` at offset 0 the
control byte is 1 and the 16-bit size 0 is divisible by 256, yet the
heuristic returns `false` (its guard demands a fourth byte), so the
claimed iff fails on this invocation. -/
theorem c6_counterexample :
    (detect_decompress_parameters [0x01, 0x00, 0x00] 0).1 = false ∧
    List.getD [0x01, 0x00, 0x00] 0 0 = 1 ∧
    (List.getD [0x01, 0x00, 0x00] 1 0 + 256 * List.getD [0x01, 0x00, 0x00] 2 0) % 256 = 0 := by
  decide

/-- C6 amended: whenever at least 4 bytes remain at the start offset
(`startOffset + 3 < length`, the guard of line 144), the heuristic guesses
alternate mode true iff the control byte equals 1 and the 16-bit expected
size is divisible by 256; on shorter buffers it returns false without
reading the header. -/
theorem c6_mode_heuristic (data : List Nat) (so : Nat) (h : so + 3 < data.length) :
    (detect_decompress_parameters data so).1 = true ↔
      (data.getD so 0 = 1 ∧
       (data.getD (so + 1) 0 + 256 * data.getD (so + 2) 0) % 256 = 0) := by
  unfold detect_decompress_parameters
  have hg : ¬(so + 3 ≥ data.length) := by omega
  have hsz : data.getD (so + 2) 0 <<< 8 = 256 * data.getD (so + 2) 0 := by
    rw [Nat.shiftLeft_eq]
    ring
  rw [if_neg hg]
  simp only [hsz, decide_eq_true_eq]

/-- C6 witness: on `01 00 00 00` the heuristic guesses alternate mode. -/
theorem c6_mode_heuristic_witness :
    (detect_decompress_parameters [0x01, 0x00, 0x00, 0x00] 0).1 = true :=
  (c6_mode_heuristic [0x01, 0x00, 0x00, 0x00] 0 (by norm_num)).mpr (by decide)

/-- C4: for every match command whose decoded offset exceeds the current
output length (and whose own bytes are available in the input), the
decoder emits the `InvalidBackreferenceOffset` diagnostic, appends zero
bytes, does not abort (the loop continues), and proceeds to the next
command bit with the two `matchInfo` bytes consumed (plus the
extended-length byte when that encoding applies, since lines 89-97 run
before the offset check of line 100). -/
theorem c4_invalid_offset_recovery (p : Params) (data : List Nat) (s : LoopState)
    (h1 : s.pos + 1 < data.length)
    (h2 : matchLengthFieldAt data s.pos = 0x0F ∧ p.specialFlag = true →
      s.pos + 2 < data.length)
    (h3 : s.output.length < matchOffsetAt data s.pos) :
    matchStep p data s =
      .cont { s with
              pos := if matchLengthFieldAt data s.pos = 0x0F ∧ p.specialFlag = true
                     then s.pos + 3 else s.pos + 2,
              diags := s.diags ++ [Diag.invalidBackreferenceOffset] } := by
  simp only [matchStep, matchFinish]
  rw [if_neg (by omega : ¬(s.pos + 1 ≥ data.length))]
  by_cases hext : matchLengthFieldAt data s.pos = 0x0F ∧ p.specialFlag = true
  · rw [if_pos hext, if_neg (by have := h2 hext; omega : ¬(s.pos + 2 ≥ data.length)),
        if_pos (by omega : matchOffsetAt data s.pos > s.output.length), if_pos hext]
  · rw [if_neg hext, if_pos (by omega : matchOffsetAt data s.pos > s.output.length),
        if_neg hext]

/-- C4 witness: a match word `00 00` against an empty output buffer is
skipped, consuming two bytes and emitting the diagnostic. -/
theorem c4_invalid_offset_recovery_witness :
    matchStep ⟨0, false, 0, false⟩ [0x00, 0x00] ⟨[], 0, 1, 0, 0, 0, []⟩ =
      .cont ⟨[], 2, 1, 0, 0, 0, [Diag.invalidBackreferenceOffset]⟩ := by
  have h := c4_invalid_offset_recovery ⟨0, false, 0, false⟩ [0x00, 0x00]
    ⟨[], 0, 1, 0, 0, 0, []⟩ (by norm_num)
    (fun hc => absurd hc.1 (by decide)) (by decide)
  rw [h]
  decide

/-! Helper lemmas: every continuing loop iteration strictly advances the
read cursor. -/

lemma matchFinish_cont_pos {p : Params} {cl off np : Nat} {s s2 : LoopState}
    (h : matchFinish p cl off np s = .cont s2) : s2.pos = np := by
  simp only [matchFinish] at h
  split_ifs at h <;> injection h with h2 <;> rw [← h2]

lemma afterBit_pos_le (data : List Nat) (s : LoopState) :
    s.pos ≤ (afterBit data s).pos := by
  simp only [afterBit]
  split_ifs <;> simp

lemma literalStep_cont_pos {p : Params} {data : List Nat} {s s2 : LoopState}
    (h : literalStep p data s = .cont s2) : s2.pos = s.pos + 1 := by
  simp only [literalStep] at h
  split_ifs at h
  all_goals (injection h with h2; rw [← h2])

lemma matchStep_cont_pos {p : Params} {data : List Nat} {s s2 : LoopState}
    (h : matchStep p data s = .cont s2) : s.pos < s2.pos := by
  simp only [matchStep] at h
  split_ifs at h
  all_goals (have hmf := matchFinish_cont_pos h; omega)

lemma loopStep_cont_pos {p : Params} {data : List Nat} {s s2 : LoopState}
    (h : loopStep p data s = .cont s2) : s.pos < s2.pos := by
  simp only [loopStep] at h
  split_ifs at h
  all_goals first
    | (have h1 := afterBit_pos_le data s
       have h2 := literalStep_cont_pos h
       omega)
    | (have h1 := afterBit_pos_le data s
       have h2 := matchStep_cont_pos h
       omega)

/-- Helper: with fuel at least `data.length + 1 - pos` the main loop never
exhausts its fuel, because every continuing iteration strictly advances
the cursor and the loop stops once the cursor reaches the end. -/
lemma runLoop_isSome (p : Params) (data : List Nat) :
    ∀ (fuel : Nat) (s : LoopState), data.length + 1 ≤ s.pos + fuel →
      (runLoop p data fuel s).isSome = true := by
  intro fuel
  induction fuel with
  | zero =>
    intro s hf
    rw [runLoop]
    split
    · rename_i hc
      exact absurd hc.2 (by omega)
    · rfl
  | succ n ih =>
    intro s hf
    rw [runLoop]
    split
    · cases hls : loopStep p data s with
      | stop s2 => simp
      | cont s2 =>
        have := loopStep_cont_pos hls
        simpa using ih s2 (by omega)
    · rfl

/-- Helper: the shape of `decompress_evo_data` once the header parses. -/
lemma decompress_eq_of_parse {data : List Nat} {so : Nat} (mode : Bool)
    {hd : Header} {pos : Nat} (hp : parseHeader data so = some (hd, pos)) :
    decompress_evo_data data so mode =
      match runLoop (mkParams hd mode) data (data.length + 1)
          (initState mode pos) with
      | none => none
      | some s =>
        some (if s.output.length < hd.dataSize
              then { s with diags := s.diags ++ [Diag.incompleteDecompression] }
              else s) := by
  unfold decompress_evo_data
  rw [hp]

/-- Helper: once the header parses, decoding returns a result. -/
lemma decompress_isSome {data : List Nat} {so : Nat} (mode : Bool)
    {hd : Header} {pos : Nat} (hp : parseHeader data so = some (hd, pos)) :
    (decompress_evo_data data so mode).isSome = true := by
  rw [decompress_eq_of_parse mode hp]
  have hrun := runLoop_isSome (mkParams hd mode) data (data.length + 1)
    (initState mode pos) (by simp [initState])
  split
  · rename_i heq
    rw [heq] at hrun
    simp at hrun
  · rfl

/-- C7: the decode procedure always terminates.  The main loop, run with
fuel exceeding the remaining input length, never exhausts its fuel (every
continuing iteration strictly consumes input), and consequently for every
buffer holding a complete header, every start offset and every mode,
`decompress_evo_data` returns a result. -/
theorem c7_termination :
    (∀ (p : Params) (data : List Nat) (fuel : Nat) (s : LoopState),
        data.length + 1 ≤ s.pos + fuel → (runLoop p data fuel s).isSome = true) ∧
    (∀ (data : List Nat) (so : Nat) (mode : Bool), so + 3 ≤ data.length →
        (decompress_evo_data data so mode).isSome = true) :=
  ⟨runLoop_isSome, fun data so mode h =>
    decompress_isSome mode (parseHeader_eq data so h)⟩

/-- C7 witness: decoding the concrete example stream terminates. -/
theorem c7_termination_witness :
    (decompress_evo_data exData 0 true).isSome = true :=
  c7_termination.2 exData 0 true (by decide)

/-! Helper lemmas: invariants preserved by the main loop. -/

lemma runLoop_zero (p : Params) (data : List Nat) (s : LoopState) :
    runLoop p data 0 s =
      if s.output.length < p.dataSize ∧ s.pos < data.length then none
      else some s := rfl

lemma runLoop_succ (p : Params) (data : List Nat) (n : Nat) (s : LoopState) :
    runLoop p data (n + 1) s =
      if s.output.length < p.dataSize ∧ s.pos < data.length then
        match loopStep p data s with
        | .stop s2 => some s2
        | .cont s2 => runLoop p data n s2
      else some s := rfl

lemma runLoop_inv (p : Params) (data : List Nat) (P : LoopState → Prop)
    (hstep : ∀ s s2 : LoopState, s.output.length < p.dataSize →
      s.pos < data.length → P s →
      (loopStep p data s = .cont s2 ∨ loopStep p data s = .stop s2) → P s2) :
    ∀ (fuel : Nat) (s r : LoopState), P s →
      runLoop p data fuel s = some r → P r := by
  intro fuel
  induction fuel with
  | zero =>
    intro s r hP hrun
    rw [runLoop_zero] at hrun
    split at hrun
    · simp at hrun
    · cases hrun
      exact hP
  | succ n ih =>
    intro s r hP hrun
    rw [runLoop_succ] at hrun
    split at hrun
    · rename_i hcond
      split at hrun
      · rename_i s2 hls
        cases hrun
        exact hstep s r hcond.1 hcond.2 hP (Or.inr hls)
      · rename_i s2 hls
        exact ih s2 r (hstep s s2 hcond.1 hcond.2 hP (Or.inl hls)) hrun
    · cases hrun
      exact hP

lemma decompress_destruct {data : List Nat} {so : Nat} {mode : Bool}
    {r : LoopState} (h : decompress_evo_data data so mode = some r) :
    ∃ (hd : Header) (pos : Nat) (s0 : LoopState),
      parseHeader data so = some (hd, pos) ∧
      runLoop (mkParams hd mode) data (data.length + 1)
        (initState mode pos) = some s0 ∧
      r.output = s0.output ∧ r.emitted = s0.emitted ∧
      r.specialCounter = s0.specialCounter ∧
      (r.diags = s0.diags ∨ r.diags = s0.diags ++ [Diag.incompleteDecompression]) := by
  cases hp : parseHeader data so with
  | none =>
    unfold decompress_evo_data at h
    rw [hp] at h
    exact absurd h (by simp)
  | some hdpos =>
    obtain ⟨hd, pos⟩ := hdpos
    rw [decompress_eq_of_parse mode hp] at h
    split at h
    · exact absurd h (by simp)
    · rename_i s0 heq
      refine ⟨hd, pos, s0, rfl, heq, ?_⟩
      injection h with h2
      split_ifs at h2
      · rw [← h2]
        exact ⟨rfl, rfl, rfl, Or.inr rfl⟩
      · rw [← h2]
        exact ⟨rfl, rfl, rfl, Or.inl rfl⟩

lemma copyLoop_length (offset : Nat) :
    ∀ (n : Nat) (out : List Nat), (copyLoop out offset n).length = out.length + n := by
  intro n
  induction n with
  | zero =>
    intro out
    rfl
  | succ m ih =>
    intro out
    rw [copyLoop, ih]
    simp [copyFromBack]
    omega

lemma matchOffsetAt_pos (data : List Nat) (pos : Nat) :
    1 ≤ matchOffsetAt data pos := by
  unfold matchOffsetAt
  omega

lemma matchLengthFieldAt_le (data : List Nat) (pos : Nat) :
    matchLengthFieldAt data pos ≤ 15 :=
  Nat.and_le_right

lemma copyLen_le_397 (p : Params) (data : List Nat) (pos : Nat)
    (hec : p.ecValue ≤ 127) (hbytes : isBytes data) :
    matchLengthFieldAt data pos + p.ecValue + data.getD (pos + 2) 0 ≤ 397 := by
  have h1 := matchLengthFieldAt_le data pos
  have h2 := getD_lt_256 hbytes (pos + 2)
  omega

lemma parseHeader_none (data : List Nat) (so : Nat) (h : data.length < so + 3) :
    parseHeader data so = none := by
  unfold parseHeader
  have h2 : data[so + 2]? = none := List.getElem?_eq_none (by omega)
  cases h0 : data[so]? with
  | none => rfl
  | some c0 =>
    cases h1 : data[so + 1]? with
    | none => simp [h2]
    | some b1 => simp [h2]

lemma parseHeader_inv {data : List Nat} {so : Nat} {hd : Header} {pos : Nat}
    (hp : parseHeader data so = some (hd, pos)) :
    so + 3 ≤ data.length ∧ pos = so + 3 ∧
      hd = ⟨if data.getD so 0 &&& 0x80 ≠ 0 then data.getD so 0 &&& 0x7F
            else data.getD so 0,
            decide (data.getD so 0 &&& 0x80 ≠ 0),
            data.getD (so + 1) 0 + data.getD (so + 2) 0 <<< 8⟩ := by
  have hlen : so + 3 ≤ data.length := by
    by_contra hcon
    rw [parseHeader_none data so (by omega)] at hp
    exact absurd hp (by simp)
  rw [parseHeader_eq data so hlen] at hp
  injection hp with hp2
  have h1 : hd = _ := (congrArg Prod.fst hp2).symm
  have h2 : pos = so + 3 := (congrArg Prod.snd hp2).symm
  exact ⟨hlen, h2, h1⟩

lemma parseHeader_ec_le {data : List Nat} {so : Nat} {hd : Header} {pos : Nat}
    (hbytes : isBytes data) (hp : parseHeader data so = some (hd, pos)) :
    hd.ecValue ≤ 127 := by
  obtain ⟨hlen, hpos, hhd⟩ := parseHeader_inv hp
  have hec : hd.ecValue = if data.getD so 0 &&& 0x80 ≠ 0
      then data.getD so 0 &&& 0x7F else data.getD so 0 := by rw [hhd]
  rw [hec]
  by_cases hflag : data.getD so 0 &&& 0x80 ≠ 0
  · rw [if_pos hflag]
    exact Nat.and_le_right
  · rw [if_neg hflag]
    exact le_127_of_and_128_eq_zero _ (by omega) (getD_lt_256 hbytes so)

/-! Helper lemmas: fields preserved by the bitstream reader. -/

lemma afterBit_output (data : List Nat) (s : LoopState) :
    (afterBit data s).output = s.output := by
  unfold afterBit
  split_ifs <;> rfl

lemma afterBit_specialCounter (data : List Nat) (s : LoopState) :
    (afterBit data s).specialCounter = s.specialCounter := by
  unfold afterBit
  split_ifs <;> rfl

lemma afterBit_emitted (data : List Nat) (s : LoopState) :
    (afterBit data s).emitted = s.emitted := by
  unfold afterBit
  split_ifs <;> rfl

lemma afterBit_diags (data : List Nat) (s : LoopState) :
    (afterBit data s).diags = s.diags := by
  unfold afterBit
  split_ifs <;> rfl

/-! Helper lemmas: how one iteration changes the special counter, the
ghost emitted-command counter, the output and the diagnostics. -/

lemma literalStep_stop_state {p : Params} {data : List Nat} {s s2 : LoopState}
    (h : literalStep p data s = .stop s2) :
    s2.specialCounter = s.specialCounter ∧ s2.emitted = s.emitted ∧
      s2.output = s.output ∧ s2.diags = s.diags ++ [Diag.truncatedLiteral] := by
  simp only [literalStep] at h
  split_ifs at h
  injection h with hh
  rw [← hh]
  exact ⟨rfl, rfl, rfl, rfl⟩

lemma literalStep_cont_state {p : Params} {data : List Nat} {s s2 : LoopState}
    (h : literalStep p data s = .cont s2) :
    s2.specialCounter =
        (if p.specialMode = true then s.specialCounter - 1 else s.specialCounter) ∧
      s2.emitted = s.emitted + 1 ∧ s2.output = s.output ++ [data.getD s.pos 0] ∧
      s2.diags = s.diags := by
  simp only [literalStep] at h
  split_ifs at h with h1 h2
  all_goals (injection h with hh; rw [← hh])
  · exact ⟨by rw [if_pos h2], rfl, rfl, rfl⟩
  · exact ⟨by rw [if_neg h2], rfl, rfl, rfl⟩

lemma matchFinish_stop_state {p : Params} {cl off np : Nat} {s s2 : LoopState}
    (h : matchFinish p cl off np s = .stop s2) :
    s2.specialCounter = s.specialCounter ∧ s2.emitted = s.emitted ∧
      s2.output = s.output := by
  simp only [matchFinish] at h
  split_ifs at h
  all_goals (injection h with hh; rw [← hh])
  all_goals exact ⟨rfl, rfl, rfl⟩

lemma matchFinish_cont_special {p : Params} {cl off np : Nat} {s s2 : LoopState}
    (hmode : p.specialMode = true) (h : matchFinish p cl off np s = .cont s2) :
    (s2.specialCounter = s.specialCounter - 1 ∧ s2.emitted = s.emitted + 1) ∨
      (s2.specialCounter = s.specialCounter ∧ s2.emitted = s.emitted ∧
       s2.output = s.output) := by
  simp only [matchFinish, hmode, if_true] at h
  split_ifs at h
  all_goals (injection h with hh; rw [← hh])
  all_goals first
    | exact Or.inl ⟨rfl, rfl⟩
    | exact Or.inr ⟨rfl, rfl, rfl⟩

lemma matchStep_stop_state {p : Params} {data : List Nat} {s s2 : LoopState}
    (h : matchStep p data s = .stop s2) :
    s2.specialCounter = s.specialCounter ∧ s2.emitted = s.emitted ∧
      s2.output = s.output := by
  simp only [matchStep] at h
  split_ifs at h
  all_goals first
    | exact matchFinish_stop_state h
    | (injection h with hh; rw [← hh]; exact ⟨rfl, rfl, rfl⟩)

lemma matchStep_cont_special {p : Params} {data : List Nat} {s s2 : LoopState}
    (hmode : p.specialMode = true) (h : matchStep p data s = .cont s2) :
    (s2.specialCounter = s.specialCounter - 1 ∧ s2.emitted = s.emitted + 1) ∨
      (s2.specialCounter = s.specialCounter ∧ s2.emitted = s.emitted ∧
       s2.output = s.output) := by
  simp only [matchStep] at h
  split_ifs at h
  all_goals exact matchFinish_cont_special hmode h

lemma loopStep_stop_state {p : Params} {data : List Nat} {s s2 : LoopState}
    (h : loopStep p data s = .stop s2) :
    s2.specialCounter = s.specialCounter ∧ s2.emitted = s.emitted ∧
      s2.output = s.output := by
  simp only [loopStep] at h
  split_ifs at h
  · injection h with hh
    rw [← hh]
    exact ⟨rfl, rfl, rfl⟩
  · have h2 := literalStep_stop_state h
    rw [afterBit_specialCounter, afterBit_emitted, afterBit_output] at h2
    exact ⟨h2.1, h2.2.1, h2.2.2.1⟩
  · have h2 := matchStep_stop_state h
    rw [afterBit_specialCounter, afterBit_emitted, afterBit_output] at h2
    exact h2

lemma loopStep_cont_special {p : Params} {data : List Nat} {s s2 : LoopState}
    (hmode : p.specialMode = true) (h : loopStep p data s = .cont s2) :
    1 ≤ s.specialCounter ∧
      ((s2.specialCounter = s.specialCounter - 1 ∧ s2.emitted = s.emitted + 1) ∨
       (s2.specialCounter = s.specialCounter ∧ s2.emitted = s.emitted ∧
        s2.output = s.output)) := by
  simp only [loopStep] at h
  split_ifs at h with hterm hbit
  · have hpos : ¬(s.specialCounter ≤ 0) := fun hc => hterm ⟨hmode, hc⟩
    have h2 := literalStep_cont_state h
    rw [afterBit_specialCounter, afterBit_emitted, hmode, if_pos rfl] at h2
    exact ⟨by omega, Or.inl ⟨h2.1, h2.2.1⟩⟩
  · have hpos : ¬(s.specialCounter ≤ 0) := fun hc => hterm ⟨hmode, hc⟩
    have h2 := matchStep_cont_special hmode h
    rw [afterBit_specialCounter, afterBit_emitted, afterBit_output] at h2
    exact ⟨by omega, h2⟩

/-! Helper lemmas: the output length never exceeds the expected size. -/

lemma matchFinish_cont_output_le {p : Params} {cl off np : Nat} {s s2 : LoopState}
    (hlen : s.output.length < p.dataSize) (h : matchFinish p cl off np s = .cont s2) :
    s2.output.length ≤ p.dataSize := by
  simp only [matchFinish] at h
  split_ifs at h
  all_goals (injection h with hh; rw [← hh]; simp only [copyLoop_length]; omega)

lemma matchStep_cont_output_le {p : Params} {data : List Nat} {s s2 : LoopState}
    (hlen : s.output.length < p.dataSize) (h : matchStep p data s = .cont s2) :
    s2.output.length ≤ p.dataSize := by
  simp only [matchStep] at h
  split_ifs at h
  all_goals exact matchFinish_cont_output_le hlen h

lemma loopStep_output_le {p : Params} {data : List Nat} {s s2 : LoopState}
    (hlen : s.output.length < p.dataSize)
    (h : loopStep p data s = .cont s2 ∨ loopStep p data s = .stop s2) :
    s2.output.length ≤ p.dataSize := by
  rcases h with h | h
  · simp only [loopStep] at h
    split_ifs at h
    · have h2 := (literalStep_cont_state h).2.2.1
      rw [afterBit_output] at h2
      rw [h2]
      simp only [List.length_append, List.length_singleton]
      omega
    · exact matchStep_cont_output_le (by rw [afterBit_output]; exact hlen) h
  · have h2 := (loopStep_stop_state h).2.2
    rw [h2]
    exact le_of_lt hlen

/-! Helper lemmas: which diagnostics one iteration can append. -/

lemma matchFinish_diags {p : Params} {cl off np : Nat} {s s2 : LoopState}
    (hoff : 1 ≤ off)
    (h : matchFinish p cl off np s = .cont s2 ∨ matchFinish p cl off np s = .stop s2) :
    ∀ d : Diag, d ∈ s2.diags → d ∈ s.diags ∨
      d = Diag.invalidBackreferenceOffset ∨ d = Diag.outputSizeOverrun ∨
      (d = Diag.excessiveCopyLength ∧ cl > 0x2000) := by
  rcases h with h | h <;> simp only [matchFinish] at h <;> split_ifs at h
  all_goals try (exfalso; omega)
  all_goals
    (injection h with hh
     intro d hd
     rw [← hh] at hd
     simp only [List.mem_append, List.mem_singleton] at hd
     tauto)

lemma matchStep_diags {p : Params} {data : List Nat} {s s2 : LoopState}
    (h : matchStep p data s = .cont s2 ∨ matchStep p data s = .stop s2) :
    ∀ d : Diag, d ∈ s2.diags → d ∈ s.diags ∨
      d = Diag.invalidBackreferenceOffset ∨ d = Diag.outputSizeOverrun ∨
      d = Diag.truncatedMatchInfo ∨ d = Diag.truncatedExtraLength ∨
      (d = Diag.excessiveCopyLength ∧
       0x2000 < matchLengthFieldAt data s.pos + p.ecValue + data.getD (s.pos + 2) 0) := by
  rcases h with h | h
  · simp only [matchStep] at h
    split_ifs at h
    all_goals
      (intro d hd
       rcases matchFinish_diags (matchOffsetAt_pos data s.pos) (Or.inl h) d hd
         with h1 | h1 | h1 | ⟨h1, h2⟩
       exacts [Or.inl h1, by tauto, by tauto,
         Or.inr (Or.inr (Or.inr (Or.inr (Or.inr ⟨h1, by omega⟩))))])
  · simp only [matchStep] at h
    split_ifs at h
    all_goals first
      | (injection h with hh
         intro d hd
         rw [← hh] at hd
         simp only [List.mem_append, List.mem_singleton] at hd
         tauto)
      | (intro d hd
         rcases matchFinish_diags (matchOffsetAt_pos data s.pos) (Or.inr h) d hd
           with h1 | h1 | h1 | ⟨h1, h2⟩
         exacts [Or.inl h1, by tauto, by tauto,
           Or.inr (Or.inr (Or.inr (Or.inr (Or.inr ⟨h1, by omega⟩))))])

lemma loopStep_diags {p : Params} {data : List Nat} {s s2 : LoopState}
    (h : loopStep p data s = .cont s2 ∨ loopStep p data s = .stop s2) :
    ∀ d : Diag, d ∈ s2.diags → d ∈ s.diags ∨
      d = Diag.earlyTermination ∨ d = Diag.truncatedLiteral ∨
      d = Diag.invalidBackreferenceOffset ∨ d = Diag.outputSizeOverrun ∨
      d = Diag.truncatedMatchInfo ∨ d = Diag.truncatedExtraLength ∨
      (d = Diag.excessiveCopyLength ∧
       ∃ q : Nat, 0x2000 < matchLengthFieldAt data q + p.ecValue + data.getD (q + 2) 0) := by
  rcases h with h | h
  · simp only [loopStep] at h
    split_ifs at h
    · intro d hd
      have h2 := (literalStep_cont_state h).2.2.2
      rw [afterBit_diags] at h2
      rw [h2] at hd
      exact Or.inl hd
    · intro d hd
      rcases matchStep_diags (Or.inl h) d hd with h1 | h1 | h1 | h1 | h1 | ⟨h1, h2⟩
      exacts [Or.inl ((afterBit_diags data s) ▸ h1), by tauto, by tauto, by tauto,
        by tauto,
        Or.inr (Or.inr (Or.inr (Or.inr (Or.inr (Or.inr (Or.inr
          ⟨h1, (afterBit data s).pos, h2⟩))))))]
  · simp only [loopStep] at h
    split_ifs at h
    · injection h with hh
      intro d hd
      rw [← hh] at hd
      simp only [List.mem_append, List.mem_singleton] at hd
      tauto
    · intro d hd
      have h2 := (literalStep_stop_state h).2.2.2
      rw [afterBit_diags] at h2
      rw [h2] at hd
      simp only [List.mem_append, List.mem_singleton] at hd
      tauto
    · intro d hd
      rcases matchStep_diags (Or.inr h) d hd with h1 | h1 | h1 | h1 | h1 | ⟨h1, h2⟩
      exacts [Or.inl ((afterBit_diags data s) ▸ h1), by tauto, by tauto, by tauto,
        by tauto,
        Or.inr (Or.inr (Or.inr (Or.inr (Or.inr (Or.inr (Or.inr
          ⟨h1, (afterBit data s).pos, h2⟩))))))]

/-- C3: in alternate (special) mode the counter starts at 256; every
iteration beginning with a depleted counter stops immediately with only
the informational early-termination notice; every continuing iteration
either emits exactly one command (literal or performed back-reference),
decrementing the counter by exactly one regardless of how many bytes the
command copies, or is a skipped command, leaving the counter, the emitted
count and the output untouched; consequently a special-mode decode runs at
most 256 emitted commands. -/
theorem c3_special_counter :
    (∀ pos : Nat, (initState true pos).specialCounter = 256) ∧
    (∀ (p : Params) (data : List Nat) (s : LoopState),
        p.specialMode = true → s.specialCounter ≤ 0 →
        loopStep p data s =
          .stop { s with diags := s.diags ++ [Diag.earlyTermination] }) ∧
    (∀ (p : Params) (data : List Nat) (s s2 : LoopState),
        p.specialMode = true → loopStep p data s = .cont s2 →
        (s2.specialCounter = s.specialCounter - 1 ∧ s2.emitted = s.emitted + 1) ∨
        (s2.specialCounter = s.specialCounter ∧ s2.emitted = s.emitted ∧
         s2.output = s.output)) ∧
    (∀ (data : List Nat) (so : Nat) (r : LoopState),
        decompress_evo_data data so true = some r → r.emitted ≤ 256) := by
  refine ⟨fun pos => by simp [initState], ?_, ?_, ?_⟩
  · intro p data s hmode hcnt
    simp only [loopStep]
    rw [if_pos ⟨hmode, hcnt⟩]
  · intro p data s s2 hmode h
    exact (loopStep_cont_special hmode h).2
  · intro data so r h
    obtain ⟨hd, pos, s0, hp, hrun, ho, he, hc, hdg⟩ := decompress_destruct h
    have hstep : ∀ s s2 : LoopState,
        s.output.length < (mkParams hd true).dataSize → s.pos < data.length →
        (s.specialCounter + (s.emitted : Int) = 256 ∧ 0 ≤ s.specialCounter) →
        (loopStep (mkParams hd true) data s = .cont s2 ∨
         loopStep (mkParams hd true) data s = .stop s2) →
        s2.specialCounter + (s2.emitted : Int) = 256 ∧ 0 ≤ s2.specialCounter := by
      intro s s2 _ _ hP hor
      rcases hor with hcont | hstop
      · obtain ⟨hge, hcase⟩ := loopStep_cont_special rfl hcont
        rcases hcase with ⟨h1, h2⟩ | ⟨h1, h2, _⟩ <;>
          exact ⟨by omega, by omega⟩
      · obtain ⟨h1, h2, _⟩ := loopStep_stop_state hstop
        exact ⟨by omega, by omega⟩
    have hinv := runLoop_inv (mkParams hd true) data
      (fun s => s.specialCounter + (s.emitted : Int) = 256 ∧ 0 ≤ s.specialCounter)
      hstep (data.length + 1) (initState true pos) s0 (by simp [initState]) hrun
    rw [he]
    obtain ⟨hsum, hnn⟩ := hinv
    omega

/-- C3 witness: the example stream decoded in special mode emits three
commands, at most 256. -/
theorem c3_special_counter_witness :
    (⟨[0x41, 0x42, 0x41, 0x42], 8, 3, 0, 253, 3, []⟩ : LoopState).emitted ≤ 256 :=
  c3_special_counter.2.2.2 exData 0
    ⟨[0x41, 0x42, 0x41, 0x42], 8, 3, 0, 253, 3, []⟩ (by decide)

/-- C8: the output length never exceeds the expected output size parsed
from the header: every iteration entered with the length strictly below
the expected size (as the loop condition guarantees) leaves the length at
most the expected size (literals add one byte only below the bound; match
copy lengths are clamped to the remaining budget), and the returned
output obeys the bound. -/
theorem c8_output_never_exceeds_size :
    (∀ (p : Params) (data : List Nat) (s s2 : LoopState),
        s.output.length < p.dataSize →
        (loopStep p data s = .cont s2 ∨ loopStep p data s = .stop s2) →
        s2.output.length ≤ p.dataSize) ∧
    (∀ (data : List Nat) (so : Nat) (mode : Bool) (hd : Header) (pos : Nat)
        (r : LoopState), parseHeader data so = some (hd, pos) →
        decompress_evo_data data so mode = some r →
        r.output.length ≤ hd.dataSize) := by
  refine ⟨fun p data s s2 hlen h => loopStep_output_le hlen h, ?_⟩
  intro data so mode hd pos r hp h
  obtain ⟨hd2, pos2, s0, hp2, hrun, ho, he, hc, hdg⟩ := decompress_destruct h
  rw [hp] at hp2
  injection hp2 with hp3
  have hhd : hd2 = hd := (congrArg Prod.fst hp3).symm
  subst hhd
  have hinv := runLoop_inv (mkParams hd2 mode) data
    (fun s => s.output.length ≤ (mkParams hd2 mode).dataSize)
    (fun s s2 hcond _ _ h => loopStep_output_le hcond h)
    (data.length + 1) (initState mode pos2) s0 (by simp [initState]) hrun
  rw [ho]
  exact hinv

/-- C8 witness: the example decode produces 4 bytes, within the expected
size 4 of its header. -/
theorem c8_output_never_exceeds_size_witness :
    (⟨[0x41, 0x42, 0x41, 0x42], 8, 3, 0, 0, 3, []⟩ : LoopState).output.length ≤
      (⟨0, false, 4⟩ : Header).dataSize :=
  c8_output_never_exceeds_size.2 exData 0 false ⟨0, false, 4⟩ 3
    ⟨[0x41, 0x42, 0x41, 0x42], 8, 3, 0, 0, 3, []⟩ (by decide) (by decide)

/-- C9: the `ExcessiveCopyLength` clamp is unreachable on byte input:
the copy length computed before clamping is at most
`0x0F + 0x7F + 0xFF = 397 < 0x2000` (length field at most 15, base length
at most 127 since bit 7 is masked off, extension byte at most 255), so the
0x2000 ceiling never takes effect and the diagnostic is never emitted. -/
theorem c9_excessive_clamp_unreachable :
    (∀ (p : Params) (data : List Nat) (pos : Nat),
        p.ecValue ≤ 127 → isBytes data →
        matchLengthFieldAt data pos + p.ecValue + data.getD (pos + 2) 0 ≤ 397) ∧
    (∀ (data : List Nat) (so : Nat) (mode : Bool) (r : LoopState),
        isBytes data → decompress_evo_data data so mode = some r →
        Diag.excessiveCopyLength ∉ r.diags) := by
  refine ⟨copyLen_le_397, ?_⟩
  intro data so mode r hbytes h
  obtain ⟨hd, pos, s0, hp, hrun, ho, he, hc, hdg⟩ := decompress_destruct h
  have hec : (mkParams hd mode).ecValue ≤ 127 := parseHeader_ec_le hbytes hp
  have hstep : ∀ s s2 : LoopState,
      s.output.length < (mkParams hd mode).dataSize → s.pos < data.length →
      Diag.excessiveCopyLength ∉ s.diags →
      (loopStep (mkParams hd mode) data s = .cont s2 ∨
       loopStep (mkParams hd mode) data s = .stop s2) →
      Diag.excessiveCopyLength ∉ s2.diags := by
    intro s s2 _ _ hP hor hmem
    rcases loopStep_diags hor _ hmem with h1 | h1 | h1 | h1 | h1 | h1 | h1 | ⟨h1, q, hq⟩
    · exact hP h1
    all_goals try simp at h1
    have := copyLen_le_397 (mkParams hd mode) data q hec hbytes
    omega
  have hinv := runLoop_inv (mkParams hd mode) data
    (fun s => Diag.excessiveCopyLength ∉ s.diags) hstep
    (data.length + 1) (initState mode pos) s0 (by simp [initState]) hrun
  rcases hdg with h1 | h1 <;> rw [h1] <;> simp [List.mem_append, hinv]

/-- C9 witness: the example decode emits no diagnostics, in particular no
`ExcessiveCopyLength`. -/
theorem c9_excessive_clamp_unreachable_witness :
    Diag.excessiveCopyLength ∉
      (⟨[0x41, 0x42, 0x41, 0x42], 8, 3, 0, 0, 3, []⟩ : LoopState).diags :=
  c9_excessive_clamp_unreachable.2 exData 0 false
    ⟨[0x41, 0x42, 0x41, 0x42], 8, 3, 0, 0, 3, []⟩ (by decide) (by decide)

/-- C10: the fatal `EmptyBufferCopy` branch is unreachable: every decoded
match offset is at least 1, so a match arriving on an empty output buffer
satisfies `offset > length` and is skipped by the invalid-offset recovery
before the empty-buffer check; hence no iteration can append the
`EmptyBufferCopy` diagnostic and decoding never aborts with it. -/
theorem c10_empty_copy_unreachable :
    (∀ (data : List Nat) (pos : Nat), 1 ≤ matchOffsetAt data pos) ∧
    (∀ (p : Params) (data : List Nat) (s s2 : LoopState),
        Diag.emptyBufferCopy ∉ s.diags →
        (loopStep p data s = .cont s2 ∨ loopStep p data s = .stop s2) →
        Diag.emptyBufferCopy ∉ s2.diags) ∧
    (∀ (data : List Nat) (so : Nat) (mode : Bool) (r : LoopState),
        decompress_evo_data data so mode = some r →
        Diag.emptyBufferCopy ∉ r.diags) := by
  have hstep : ∀ (p : Params) (data : List Nat) (s s2 : LoopState),
      Diag.emptyBufferCopy ∉ s.diags →
      (loopStep p data s = .cont s2 ∨ loopStep p data s = .stop s2) →
      Diag.emptyBufferCopy ∉ s2.diags := by
    intro p data s s2 hP hor hmem
    rcases loopStep_diags hor _ hmem with h1 | h1 | h1 | h1 | h1 | h1 | h1 | ⟨h1, _⟩
    · exact hP h1
    all_goals simp at h1
  refine ⟨matchOffsetAt_pos, hstep, ?_⟩
  intro data so mode r h
  obtain ⟨hd, pos, s0, hp, hrun, ho, he, hc, hdg⟩ := decompress_destruct h
  have hinv := runLoop_inv (mkParams hd mode) data
    (fun s => Diag.emptyBufferCopy ∉ s.diags)
    (fun s s2 _ _ hP hor => hstep (mkParams hd mode) data s s2 hP hor)
    (data.length + 1) (initState mode pos) s0 (by simp [initState]) hrun
  rcases hdg with h1 | h1 <;> rw [h1] <;> simp [List.mem_append, hinv]

/-- C10 witness: the example special-mode decode never aborts with
`EmptyBufferCopy`. -/
theorem c10_empty_copy_unreachable_witness :
    Diag.emptyBufferCopy ∉
      (⟨[0x41, 0x42, 0x41, 0x42], 8, 3, 0, 253, 3, []⟩ : LoopState).diags :=
  c10_empty_copy_unreachable.2.2 exData 0 true
    ⟨[0x41, 0x42, 0x41, 0x42], 8, 3, 0, 253, 3, []⟩ (by decide)

end EvoDecomp
